import Mathlib

/-!
Verification of the NetAPI-PANOS core against its specification.

The Python sources under scrutiny are `xml_api.py` (the protocol client:
command encoder `XmlApi.xpath_to_xml`, response validator
`XmlApi.check_response`, operations `XmlApi.get_config` and `XmlApi.op`),
`interfaces.py` (the interface correlation engine) and `vlans.py` (one user
of the single-or-list collection normalizer pattern).

Modelling conventions:
- strings are Lean `String` / `List Char`; Python `str.split` on a single
  character is re-implemented structurally as `splitOnChar`;
- the HTTP transport (`requests.get`) and the XML-to-dict conversion
  (`xmltodict.parse`) are external effects, passed to the client
  operations as oracles (`doGet`, `parseXml`); an oracle outcome other
  than `ok` stands for the corresponding Python exception being raised
  by the library call;
- a Python exception propagating out of a method is modelled as
  `Except.error (e : PyExn)`; a value actually returned to the caller is
  `Except.ok`;
- Python dictionaries with a known shape are structures whose optional
  keys are `Option` fields; reading a missing key raises `PyExn.keyError`;
- `print` output of `check_response` is modelled as the list of printed
  lines, returned next to the boolean verdict;
- the description-resolution inputs of the correlation engine
  (`phy_description`, the `sub_description` table) are parameters of the
  pipeline, since the claims under study do not constrain them.
-/

/-- Python `str.split(sep)` for a single-character separator, as used by
`xpath.split('/')` in `XmlApi.xpath_to_xml` (src/xml_api.py:303) and by
`sub['name'].split('.')` in `Interfaces.sub_interfaces`
(src/interfaces.py:184). Always returns a non-empty list. -/
def splitOnChar (c : Char) : List Char → List (List Char)
  | [] => [[]]
  | x :: xs =>
    if x = c then [] :: splitOnChar c xs
    else
      match splitOnChar c xs with
      | [] => [[x]]
      | h :: t => (x :: h) :: t

/-- The opening tag built by `xml += f'<{entry}>'` (src/xml_api.py:309). -/
def openTag (e : List Char) : List Char := '<' :: e ++ ['>']

/-- The closing tag built by `xml += f'</{entry}>'` (src/xml_api.py:315). -/
def closeTag (e : List Char) : List Char := '<' :: '/' :: (e ++ ['>'])

/-- Core of `XmlApi.xpath_to_xml` after the split: starting from the empty
string, append one opening tag per segment in order, append the argument,
then append closing tags iterating the segment list in reverse
(src/xml_api.py:306-318). -/
def encode_command (x_list : List (List Char)) (argument : List Char) : List Char :=
  let xml1 := x_list.foldl (fun acc e => acc ++ openTag e) []
  let xml2 := xml1 ++ argument
  x_list.reverse.foldl (fun acc e => acc ++ closeTag e) xml2

/-- `XmlApi.xpath_to_xml` (src/xml_api.py:283-318): split the xpath on `/`,
drop the leading piece (`x_list.pop(0)`), then encode. -/
def xpath_to_xml (xpath argument : List Char) : List Char :=
  encode_command ((splitOnChar '/' xpath).tail) argument

/-- String-level wrapper of `xpath_to_xml`. -/
def xpath_to_xml_str (xpath argument : String) : String :=
  ⟨xpath_to_xml xpath.toList argument.toList⟩

/-- The error taxonomy named by the specification (§7). -/
inductive ErrorKind where
  | InvalidCommand
  | Timeout
  | ConnectionFailed
  | TransportError
  | ParseError
  | DeviceError
  deriving DecidableEq, Repr

/-- Modelled from the spec (§4.1): the Command Encoder as the specification
words it — same tag-wrapped output, but failing with
`ErrorKind.InvalidCommand` when some segment is empty. This definition
follows the words of the spec and exists to be compared with the source
definition `encode_command`, which has no failure path. -/
def encode_command_specModel (segs : List (List Char)) (arg : List Char) :
    Except ErrorKind (List Char) :=
  if segs.any (fun s => s.isEmpty) then .error .InvalidCommand
  else .ok ((segs.map openTag).flatten ++ arg ++ (segs.reverse.map closeTag).flatten)

/-- Modelled from the spec (§8 round-trip property): a parser for the tag
nesting of the encoded command. It reads a chain
`<n1><n2>...<nk>TEXT</nk>...</n2></n1>`: an opening tag is `<` followed by
a name running up to the next `>` and not starting with `/`; the matching
closing tag must terminate the enclosing block; the innermost remainder is
the text and may not contain `<`. Fuel-based recursion; `parseChain`
supplies sufficient fuel. -/
def parseChainAux : Nat → List Char → Option (List (List Char) × List Char)
  | 0, _ => none
  | fuel + 1, s =>
    match s with
    | [] => some ([], [])
    | c0 :: s1 =>
      if c0 = '<' then
        match s1 with
        | [] => none
        | c :: rest =>
          if c = '/' then none
          else
            let name := (c :: rest).takeWhile (fun ch => ch ≠ '>')
            match (c :: rest).dropWhile (fun ch => ch ≠ '>') with
            | [] => none
            | d :: inner =>
              if d = '>' then
                let closing := closeTag name
                if closing.isSuffixOf inner then
                  match parseChainAux fuel (inner.take (inner.length - closing.length)) with
                  | some (segs, txt) => some (name :: segs, txt)
                  | none => none
                else none
              else none
      else
        if '<' ∈ s1 then none else some ([], c0 :: s1)

/-- Parse the tag nesting of a string, recovering the ordered list of tag
names and the innermost text. -/
def parseChain (s : List Char) : Option (List (List Char) × List Char) :=
  parseChainAux (s.length + 1) s

/-- The payload stored under the `result` key of a parsed reply; only its
optional `msg` key is ever read by `check_response` (src/xml_api.py:150). -/
structure ResultPayload where
  msg : Option String
  deriving DecidableEq, Repr

/-- The object under `response['response']` of a reply parsed by
`xmltodict.parse`: the `@status` attribute, the optional `@code`
attribute, an optional top-level `msg` key and an optional `result` key.
A missing optional key read unconditionally raises a `KeyError`. -/
structure PanResponse where
  status : String
  code : Option String
  msg : Option String
  result : Option ResultPayload
  deriving DecidableEq, Repr

/-- A Python exception escaping a client method to the caller. -/
inductive PyExn where
  | keyError (key : String)
  | connectTimeout
  | connectionError
  | otherException (msg : String)
  | xmlParseError (msg : String)
  deriving DecidableEq, Repr

/-- The fixed vendor error-code table of `XmlApi.check_response`
(src/xml_api.py:113-137), in source order. -/
def err_codes : List (String × String) :=
  [("400", "Bad request"),
   ("403", "Forbidden"),
   ("1", "Unknown command"),
   ("2", "Internal error"),
   ("3", "Internal error"),
   ("4", "Internal error"),
   ("5", "Internal error"),
   ("6", "Bad Xpath"),
   ("7", "Object not present"),
   ("8", "Object not unique"),
   ("10", "Reference count not zero"),
   ("11", "Internal error"),
   ("12", "Invalid object"),
   ("13", "Object not found"),
   ("14", "Operation not possible"),
   ("15", "Operation denied"),
   ("16", "Unauthorized"),
   ("17", "Invalid command"),
   ("18", "Malformed command"),
   ("19", "Success"),
   ("20", "Success"),
   ("21", "Internal error"),
   ("22", "Session timed out")]

/-- The classification line printed for an error code
(src/xml_api.py:156-159): codes absent from the table are reported as-is
with a generic label, known codes with their table meaning. -/
def code_line (code : String) : String :=
  match err_codes.lookup code with
  | none => "Unknown error code: " ++ code
  | some meaning => "Error code: " ++ code ++ " (" ++ meaning ++ ")"

/-- The three lines printed for a failed response. -/
def err_lines (code errMsg : String) : List String :=
  ["Error accessing the API", code_line code, "Error: " ++ errMsg]

/-- `XmlApi.check_response` (src/xml_api.py:92-166). On an `error` status it
reads `@code`, extracts the message from `msg`, else from
`result['msg']` if a `result` key exists, else synthesizes
`"Unknown error"`; it prints the diagnostic lines and returns `False`.
On any other status it returns `True`. An unconditional read of a missing
key is a raised `KeyError` (`Except.error`). -/
def check_response (r : PanResponse) : Except PyExn (List String × Bool) :=
  if r.status = "error" then
    match r.code with
    | none => .error (.keyError "@code")
    | some code =>
      let extracted : Except PyExn String :=
        match r.msg with
        | some m => .ok m
        | none =>
          match r.result with
          | some payload =>
            match payload.msg with
            | some m => .ok m
            | none => .error (.keyError "msg")
          | none => .ok "Unknown error"
      match extracted with
      | .error e => .error e
      | .ok errMsg => .ok (err_lines code errMsg, false)
  else .ok ([], true)

/-- The outcome of one `requests.get` call: a reply body, or one of the
exceptions distinguished by the handlers in `XmlApi.op`
(src/xml_api.py:257-271). -/
inductive TransportResult where
  | ok (body : String)
  | connectTimeout
  | connectionError
  | otherError (msg : String)
  deriving DecidableEq, Repr

/-- The dictionary returned by `XmlApi.op`: either the parsed response, or
an error dictionary `{"error": ..., "command": ...}`. -/
inductive OpValue where
  | response (r : PanResponse)
  | errorDict (error : String) (command : String)
  deriving DecidableEq, Repr

/-- The dictionary returned by `XmlApi.get_config`: either the parsed
response, or an error dictionary `{"error": ...}` with no command key. -/
inductive ConfigValue where
  | response (r : PanResponse)
  | errorDict (error : String)
  deriving DecidableEq, Repr

/-- The `arg` keyword argument handling of `XmlApi.op`
(src/xml_api.py:239-242): absent means the empty string. -/
def op_arg (kwargs : Option String) : String :=
  match kwargs with
  | some a => a
  | none => ""

/-- `XmlApi.op` (src/xml_api.py:209-281). Only the `requests.get` call sits
inside the `try` block: its three handlers return error dictionaries that
carry the attempted command string. The `xmltodict.parse` call and the
`check_response` call are outside the `try`, so an exception raised there
propagates (`Except.error`). -/
def op (doGet : String → TransportResult)
    (parseXml : String → Except String PanResponse)
    (host xpath : String) (kwargs : Option String) : Except PyExn OpValue :=
  let arg := op_arg kwargs
  let xml := xpath_to_xml_str xpath arg
  let url := "https://" ++ host ++ "/api" ++ "/?type=op&cmd=" ++ xml
  match doGet url with
  | .connectTimeout => .ok (.errorDict "Timeout while connecting to device" xml)
  | .connectionError => .ok (.errorDict "Error connecting to device" xml)
  | .otherError e => .ok (.errorDict ("Error while connecting: " ++ e) xml)
  | .ok body =>
    match parseXml body with
    | .error e => .error (.xmlParseError e)
    | .ok rd =>
      match check_response rd with
      | .error e => .error e
      | .ok (_, true) => .ok (.response rd)
      | .ok (_, false) => .ok (.errorDict "Error retrieving config" xml)

/-- `XmlApi.get_config` (src/xml_api.py:168-207). There is no `try` block at
all: any transport exception raised by `requests.get`, and any parse
exception raised by `xmltodict.parse`, propagates to the caller; the error
dictionary built on a validation failure carries no command string. -/
def get_config (doGet : String → TransportResult)
    (parseXml : String → Except String PanResponse)
    (host xpath : String) : Except PyExn ConfigValue :=
  let url := "https://" ++ host ++ "/api" ++ "/?type=config&action=get&xpath=" ++ xpath
  match doGet url with
  | .connectTimeout => .error .connectTimeout
  | .connectionError => .error .connectionError
  | .otherError e => .error (.otherException e)
  | .ok body =>
    match parseXml body with
    | .error e => .error (.xmlParseError e)
    | .ok rd =>
      match check_response rd with
      | .error e => .error e
      | .ok (_, true) => .ok (.response rd)
      | .ok (_, false) => .ok (.errorDict "Error retrieving config")

/-- One physical interface entry of the `show interface hardware` reply, as
consumed by the correlation engine: name, MAC, state and speed
(src/interfaces.py:468-483). -/
structure PhyIface where
  name : String
  mac : String
  state : String
  speed : String
  deriving DecidableEq, Repr

/-- One logical interface entry of the `show interface logical` reply: name
and IP-or-"N/A" address (src/interfaces.py:474-478, 499-503). -/
structure LogIface where
  name : String
  ip : String
  deriving DecidableEq, Repr

/-- One entry of `raw_data['interfaces']` built by
`Interfaces.raw_interfaces` (src/interfaces.py:409-426): the physical
record, the optional matched logical record, the per-interface detail
fetch result (type `δ`, never read downstream), the resolved description,
and the `sub` list (absent key modelled as the empty list, which the
output loop treats identically). -/
structure RawEntry (δ : Type) where
  phy : PhyIface
  log : Option LogIface
  detail : δ
  description : String
  sub : List LogIface
  deriving DecidableEq, Repr

/-- `Interfaces.raw_interfaces` (src/interfaces.py:382-428), with the
transport abstracted: one entry per physical interface in order; the
logical match is the first logical entry with an equal name (loop with
`break`); the detail fetch `conn.op('/show/interface', arg=name)` is the
oracle `detailFetch` applied to the name; the description comes from
`phy_description`, abstracted as `descOf`. -/
def raw_interfaces {δ : Type} (phys : List PhyIface) (logs : List LogIface)
    (detailFetch : String → δ) (descOf : PhyIface → String) : List (RawEntry δ) :=
  phys.map (fun iface =>
    { phy := iface
      log := logs.find? (fun lg => lg.name == iface.name)
      detail := detailFetch iface.name
      description := descOf iface
      sub := [] })

/-- The parent-name prefix `sub['name'].split('.')[0]`
(src/interfaces.py:184): everything before the first `.` of the name. -/
def parent_name (n : String) : String :=
  ⟨n.toList.takeWhile (fun c => c ≠ '.')⟩

/-- The inner loop of `Interfaces.sub_interfaces` (src/interfaces.py:186-191):
append the subinterface to the `sub` list of the first entry whose
physical name equals the parent prefix, then stop; if no entry matches,
the list is left unchanged. -/
def append_sub {δ : Type} (sub : LogIface) : List (RawEntry δ) → List (RawEntry δ)
  | [] => []
  | e :: rest =>
    if e.phy.name = parent_name sub.name then
      { e with sub := e.sub ++ [sub] } :: rest
    else
      e :: append_sub sub rest

/-- `Interfaces.sub_interfaces` (src/interfaces.py:161-191): walk the
logical interface list; every entry whose name contains a `.` is attached
to the first matching parent entry. -/
def sub_interfaces {δ : Type} (entries : List (RawEntry δ)) (logs : List LogIface) :
    List (RawEntry δ) :=
  logs.foldl (fun es sub => if '.' ∈ sub.name.toList then append_sub sub es else es) entries

/-- The `counters` record of an output entry (src/interfaces.py:485-490). -/
structure Counters where
  bps_in : String
  bps_out : String
  pps_in : String
  pps_out : String
  deriving DecidableEq, Repr

/-- One subinterface record of the output (src/interfaces.py:495-510); the
`address` and `description` keys may be absent. -/
structure SubEntry where
  subinterface : String
  family : String
  address : Option String
  description : Option String
  deriving DecidableEq, Repr

/-- The `poe` record of an output entry (src/interfaces.py:512-517). -/
structure PoeInfo where
  admin : String
  operational : String
  max : String
  used : String
  deriving DecidableEq, Repr

/-- One parent interface record of the output topology
(src/interfaces.py:466-520); the `address` key may be absent. -/
structure IfaceEntry where
  name : String
  mac : String
  description : String
  family : String
  address : Option String
  speed : String
  counters : Counters
  subinterfaces : List SubEntry
  poe : PoeInfo
  deriving DecidableEq, Repr

/-- The subinterface output block of `Interfaces.interfaces`
(src/interfaces.py:495-510): family and address from the `"N/A"` rule, the
description from the first matching entry of the `sub_description` table
(key absent when no entry matches). -/
def mk_sub_entry (descriptions : List (String × String)) (sub : LogIface) : SubEntry :=
  { subinterface := sub.name
    family := if sub.ip = "N/A" then "Ethernet" else "inet"
    address := if sub.ip = "N/A" then none else some sub.ip
    description := (descriptions.find? (fun d => d.1 == sub.name)).map (fun d => d.2) }

/-- The per-entry output block of `Interfaces.interfaces`
(src/interfaces.py:466-520): name, mac and description copied; family and
address from the matched logical record (`"None"` family when none
matched, the `"N/A"` rule otherwise); speed forced to the literal string
`"None"` when the physical state is `down`; counters populated with four
empty strings; subinterfaces mapped from the `sub` list; constant poe
block. -/
def mk_entry {δ : Type} (descriptions : List (String × String)) (iface : RawEntry δ) :
    IfaceEntry :=
  { name := iface.phy.name
    mac := iface.phy.mac
    description := iface.description
    family :=
      match iface.log with
      | none => "None"
      | some lg => if lg.ip = "N/A" then "Ethernet" else "inet"
    address :=
      match iface.log with
      | none => none
      | some lg => if lg.ip = "N/A" then none else some lg.ip
    speed := if iface.phy.state = "down" then "None" else iface.phy.speed
    counters := { bps_in := "", bps_out := "", pps_in := "", pps_out := "" }
    subinterfaces := iface.sub.map (mk_sub_entry descriptions)
    poe := { admin := "N/A", operational := "N/A", max := "N/A", used := "N/A" } }

/-- `Interfaces.interfaces` (src/interfaces.py:430-522) with the transport
and the configuration-tree description resolution abstracted: build the
raw entries, attach the subinterfaces, then map every raw entry to its
output record. -/
def interfaces {δ : Type} (phys : List PhyIface) (logs : List LogIface)
    (detailFetch : String → δ) (descOf : PhyIface → String)
    (descriptions : List (String × String)) : List IfaceEntry :=
  (sub_interfaces (raw_interfaces phys logs detailFetch descOf) logs).map
    (mk_entry descriptions)

/-- A dynamic Python value as seen by the single-or-list coercion: `None`,
a bare (non-list) object, or a list. -/
inductive PyVal (α : Type) where
  | null
  | obj (a : α)
  | pylist (l : List (PyVal α))

/-- The Collection Normalizer pattern `if type(x) is not list: x = [x]`
(src/interfaces.py:216-218, src/vlans.py:163-164): a list is kept as-is,
any non-list value — including `None` — is wrapped in a one-element
list. -/
def normalize_collection {α : Type} (v : PyVal α) : List (PyVal α) :=
  match v with
  | .pylist l => l
  | x => [x]

/-- The entry projection of a raw entry that `sub_interfaces` never
changes: everything except the `sub` list. -/
def entry_core {δ : Type} (e : RawEntry δ) : PhyIface × Option LogIface × δ × String :=
  (e.phy, e.log, e.detail, e.description)

/-- The total number of attached subinterfaces across a raw entry list. -/
def total_subs {δ : Type} (es : List (RawEntry δ)) : Nat :=
  (es.map (fun e => e.sub.length)).sum

/-- Forgetting the detail payload of a raw entry. -/
def with_unit_detail {δ : Type} (e : RawEntry δ) : RawEntry Unit :=
  { phy := e.phy, log := e.log, detail := (), description := e.description, sub := e.sub }

/-- Demonstration physical interface list used by the witnesses. -/
def phys_demo : List PhyIface :=
  [{ name := "ethernet1/1", mac := "aa:bb", state := "up", speed := "1G" },
   { name := "ethernet1/2", mac := "cc:dd", state := "down", speed := "10G" }]

/-- Demonstration logical interface list used by the witnesses: one parent
match, one matched subinterface, one subinterface with no parent. -/
def logs_demo : List LogIface :=
  [{ name := "ethernet1/1", ip := "10.0.0.1" },
   { name := "ethernet1/1.10", ip := "N/A" },
   { name := "foo.1", ip := "10.9.9.9" }]

/-- Demonstration description table used by the witnesses. -/
def descs_demo : List (String × String) := [("ethernet1/1.10", "uplink")]

/-- The first output record of the demonstration topology. -/
def entry1_demo : IfaceEntry :=
  { name := "ethernet1/1", mac := "aa:bb", description := "", family := "inet",
    address := some "10.0.0.1", speed := "1G",
    counters := { bps_in := "", bps_out := "", pps_in := "", pps_out := "" },
    subinterfaces := [{ subinterface := "ethernet1/1.10", family := "Ethernet",
                        address := none, description := some "uplink" }],
    poe := { admin := "N/A", operational := "N/A", max := "N/A", used := "N/A" } }

/-- The second output record of the demonstration topology. -/
def entry2_demo : IfaceEntry :=
  { name := "ethernet1/2", mac := "cc:dd", description := "", family := "None",
    address := none, speed := "None",
    counters := { bps_in := "", bps_out := "", pps_in := "", pps_out := "" },
    subinterfaces := [],
    poe := { admin := "N/A", operational := "N/A", max := "N/A", used := "N/A" } }

theorem foldl_append_eq_flatten {α β : Type} (f : α → List β) (l : List α) (init : List β) :
    l.foldl (fun acc e => acc ++ f e) init = init ++ (l.map f).flatten := by
  induction l generalizing init with
  | nil => simp
  | cons x xs ih => simp [List.foldl_cons, ih, List.append_assoc]

theorem encode_command_eq_flatten (segs : List (List Char)) (arg : List Char) :
    encode_command segs arg =
      (segs.map openTag).flatten ++ arg ++ (segs.reverse.map closeTag).flatten := by
  simp only [encode_command]
  rw [foldl_append_eq_flatten, foldl_append_eq_flatten]
  simp [List.append_assoc]

theorem encode_command_cons (n : List Char) (segs : List (List Char)) (arg : List Char) :
    encode_command (n :: segs) arg =
      openTag n ++ (encode_command segs arg ++ closeTag n) := by
  simp [encode_command_eq_flatten, List.append_assoc]

/-- C3: the Command Encoder opens one tag per path segment in path order,
inserts the optional argument as raw text immediately before the innermost
closing tag, and closes the tags in reverse order; in particular the two
concrete examples of the claim hold exactly. -/
theorem encoder_shape_and_examples :
    xpath_to_xml_str "/show/system/info" "" = "<show><system><info></info></system></show>"
    ∧ xpath_to_xml_str "/show/interface" "ae1" = "<show><interface>ae1</interface></show>"
    ∧ ∀ (segs : List (List Char)) (arg : List Char),
        encode_command segs arg =
          (segs.map openTag).flatten ++ arg ++ (segs.reverse.map closeTag).flatten :=
  ⟨by decide, by decide, encode_command_eq_flatten⟩

/-- C8 counterexample: on the path with segments `["", "show"]` (an empty
first segment) the source encoder does not fail at all — it returns the
string `"<><show></show></>"` — while the spec-modelled encoder fails
with `InvalidCommand`. -/
theorem encoder_empty_segment_no_failure :
    encode_command [[], "show".toList] [] = "<><show></show></>".toList
    ∧ encode_command_specModel [[], "show".toList] [] = .error .InvalidCommand :=
  ⟨by decide, rfl⟩

/-- C8 amended: the source encoder never fails — it returns a string on
every path — and it agrees with the failure-reporting encoder of the spec
exactly on the paths whose segments are all non-empty. -/
theorem encoder_agreement_iff_no_empty_segment (segs : List (List Char)) (arg : List Char) :
    encode_command_specModel segs arg = .ok (encode_command segs arg)
      ↔ segs.any (fun s => s.isEmpty) = false := by
  unfold encode_command_specModel
  by_cases h : segs.any (fun s => s.isEmpty)
  · simp [h]
  · simp [h, encode_command_eq_flatten]

theorem takeWhile_append_stop {α : Type} (p : α → Bool) (a : List α) (c : α) (b : List α)
    (ha : ∀ x ∈ a, p x = true) (hc : p c = false) :
    (a ++ c :: b).takeWhile p = a ∧ (a ++ c :: b).dropWhile p = c :: b := by
  induction a with
  | nil => simp [List.takeWhile_cons, List.dropWhile_cons, hc]
  | cons x xs ih =>
    have hx : p x = true := ha x (by simp)
    have ih2 := ih (fun y hy => ha y (by simp [hy]))
    simp [List.takeWhile_cons, List.dropWhile_cons, hx, ih2.1, ih2.2]

theorem encode_command_nil (arg : List Char) : encode_command [] arg = arg := by
  simp [encode_command]

theorem encode_command_length_ge (segs : List (List Char)) (arg : List Char) :
    segs.length ≤ (encode_command segs arg).length := by
  induction segs with
  | nil => simp
  | cons n rest ih =>
    rw [encode_command_cons]
    simp only [List.length_append, List.length_cons, openTag, closeTag]
    omega

theorem parseChainAux_encode :
    ∀ (segs : List (List Char)) (arg : List Char),
      (∀ s ∈ segs, s ≠ [] ∧ '/' ∉ s ∧ '<' ∉ s ∧ '>' ∉ s) → '<' ∉ arg →
      ∀ fuel, segs.length < fuel →
        parseChainAux fuel (encode_command segs arg) = some (segs, arg) := by
  intro segs
  induction segs with
  | nil =>
    intro arg _ harg fuel hf
    rw [encode_command_nil]
    match fuel, hf with
    | fuel + 1, _ =>
      cases arg with
      | nil => rfl
      | cons a as =>
        have ha : a ≠ '<' := fun hEq => harg (hEq ▸ List.mem_cons_self a as)
        have has : '<' ∉ as := fun hm => harg (List.mem_cons_of_mem a hm)
        simp [parseChainAux, ha, Ne.symm ha, has]
  | cons n rest ih =>
    intro arg h harg fuel hf
    match fuel, hf with
    | fuel + 1, hf =>
      obtain ⟨hne, hslash, hlt, hgt⟩ := h n (List.mem_cons_self n rest)
      have hrest : ∀ s ∈ rest, s ≠ [] ∧ '/' ∉ s ∧ '<' ∉ s ∧ '>' ∉ s :=
        fun s hs => h s (List.mem_cons_of_mem n hs)
      cases n with
      | nil => exact absurd rfl hne
      | cons c nt =>
        have hcslash : c ≠ '/' := fun hEq => hslash (hEq ▸ List.mem_cons_self c nt)
        have hshape : encode_command ((c :: nt) :: rest) arg
            = '<' :: c :: (nt ++ '>' :: (encode_command rest arg ++ closeTag (c :: nt))) := by
          rw [encode_command_cons]
          simp [openTag, List.append_assoc]
        have htw := takeWhile_append_stop (fun ch => ch ≠ '>') (c :: nt) '>'
          (encode_command rest arg ++ closeTag (c :: nt))
          (fun x hx => by
            have : x ≠ '>' := fun hEq => hgt (hEq ▸ hx)
            simpa using this)
          (by simp)
        have hcons : (c :: nt) ++ '>' :: (encode_command rest arg ++ closeTag (c :: nt))
            = c :: (nt ++ '>' :: (encode_command rest arg ++ closeTag (c :: nt))) := by simp
        rw [hcons] at htw
        have hsuf : (closeTag (c :: nt)).isSuffixOf
            (encode_command rest arg ++ closeTag (c :: nt)) = true := by
          simp [List.isSuffixOf_iff_suffix]
        have htake : (encode_command rest arg ++ closeTag (c :: nt)).take
            ((encode_command rest arg ++ closeTag (c :: nt)).length - (closeTag (c :: nt)).length)
            = encode_command rest arg := by
          rw [List.length_append, Nat.add_sub_cancel]
          exact List.take_left _ _
        have hih := ih arg hrest harg fuel (by simp at hf; omega)
        rw [hshape]
        simp only [parseChainAux, if_pos rfl, hcslash, if_neg hcslash, htw.1, htw.2,
          if_pos rfl, hsuf, if_pos rfl, htake, hih]
        simp

/-- C9 counterexample: the segment `"a>b"` is non-empty and contains no
`/`, yet re-parsing the tag nesting of the encoded output does not
recover the original segment list (the encoder performs no escaping, so a
`>` inside a segment corrupts the tag structure). -/
theorem parse_does_not_recover_gt_segment :
    parseChain (encode_command ["a>b".toList] []) ≠ some (["a>b".toList], []) := by decide

/-- C9 amended: the encode-then-parse round trip recovers the ordered
segment list (and the argument) for every path whose segments are
non-empty and free of `/`, `<` and `>`, with an argument free of `<`. -/
theorem parseChain_encode_command (segs : List (List Char)) (arg : List Char)
    (h : ∀ s ∈ segs, s ≠ [] ∧ '/' ∉ s ∧ '<' ∉ s ∧ '>' ∉ s) (harg : '<' ∉ arg) :
    parseChain (encode_command segs arg) = some (segs, arg) := by
  have hlen := encode_command_length_ge segs arg
  exact parseChainAux_encode segs arg h harg _ (by omega)

/-- C9 witness: the round trip at the concrete command
`["show", "interface"]` with argument `"ae1"`. -/
theorem parseChain_encode_command_witness :
    parseChain (encode_command ["show".toList, "interface".toList] "ae1".toList)
      = some (["show".toList, "interface".toList], "ae1".toList) :=
  parseChain_encode_command _ _ (by decide) (by decide)

/-- C1 counterexample: a connection failure during `get_config` reaches the
caller as the raw transport exception (there is no `try` block in
`get_config`), and a malformed reply body in `op` reaches the caller as
the raw parse exception (`xmltodict.parse` sits outside the `try` block);
neither outcome is an error dictionary, and the first one carries no
command string. -/
theorem client_leaks_raw_exceptions :
    get_config (fun _ => .connectionError) (fun _ => .error "not xml")
        "fw1" "/config/devices" = .error .connectionError
    ∧ op (fun _ => .ok "<bad") (fun _ => .error "not xml")
        "fw1" "/show/system/info" none = .error (.xmlParseError "not xml") :=
  ⟨rfl, rfl⟩

/-- C1 amended: only `op` catches transport-level failures, returning an
error dictionary that includes the attempted command string; `get_config`
catches nothing, so every transport failure propagates to the caller as
the raw exception; and malformed XML in the reply body raises an uncaught
parse exception in both operations. -/
theorem client_failure_policy (host xpath : String) (kwargs : Option String)
    (parseXml : String → Except String PanResponse) (e body : String) :
    op (fun _ => .connectTimeout) parseXml host xpath kwargs
        = .ok (.errorDict "Timeout while connecting to device"
            (xpath_to_xml_str xpath (op_arg kwargs)))
    ∧ op (fun _ => .connectionError) parseXml host xpath kwargs
        = .ok (.errorDict "Error connecting to device"
            (xpath_to_xml_str xpath (op_arg kwargs)))
    ∧ op (fun _ => .otherError e) parseXml host xpath kwargs
        = .ok (.errorDict ("Error while connecting: " ++ e)
            (xpath_to_xml_str xpath (op_arg kwargs)))
    ∧ op (fun _ => .ok body) (fun _ => .error e) host xpath kwargs
        = .error (.xmlParseError e)
    ∧ get_config (fun _ => .connectTimeout) parseXml host xpath = .error .connectTimeout
    ∧ get_config (fun _ => .connectionError) parseXml host xpath = .error .connectionError
    ∧ get_config (fun _ => .otherError e) parseXml host xpath = .error (.otherException e)
    ∧ get_config (fun _ => .ok body) (fun _ => .error e) host xpath
        = .error (.xmlParseError e) :=
  ⟨rfl, rfl, rfl, rfl, rfl, rfl, rfl, rfl⟩

/-- C2 counterexample: an error response that carries a `result` payload
without a `msg` field makes `check_response` raise a `KeyError` on
`response['response']['result']['msg']` instead of returning a
classification with a synthesized message. -/
theorem check_response_throws_on_result_without_msg :
    check_response { status := "error", code := some "1", msg := none,
                     result := some { msg := none } }
      = .error (.keyError "msg") := rfl

/-- C2 amended: on an error response carrying a code, `check_response`
returns the classification and display message when a top-level `msg` is
present, when a `result` payload with a `msg` is present, or when neither
`msg` nor `result` exists (synthesizing `"Unknown error"`); codes absent
from the fixed table are reported as-is inside the classification line;
but when a `result` payload exists without a `msg` field, the message
lookup raises a `KeyError`. -/
theorem check_response_error_cases (r : PanResponse) (c : String)
    (hs : r.status = "error") (hc : r.code = some c) :
    (∀ m, r.msg = some m → check_response r = .ok (err_lines c m, false))
    ∧ (∀ p m, r.msg = none → r.result = some p → p.msg = some m →
        check_response r = .ok (err_lines c m, false))
    ∧ (r.msg = none → r.result = none →
        check_response r = .ok (err_lines c "Unknown error", false))
    ∧ (∀ p, r.msg = none → r.result = some p → p.msg = none →
        check_response r = .error (.keyError "msg"))
    ∧ (∀ lines b, check_response r = .ok (lines, b) → b = false ∧ code_line c ∈ lines) := by
  refine ⟨?_, ?_, ?_, ?_, ?_⟩
  · intro m hm
    simp [check_response, hs, hc, hm]
  · intro p m hm hp hpm
    simp [check_response, hs, hc, hm, hp, hpm]
  · intro hm hp
    simp [check_response, hs, hc, hm, hp]
  · intro p hm hp hpm
    simp [check_response, hs, hc, hm, hp, hpm]
  · intro lines b hok
    rcases hmsg : r.msg with _ | m
    · rcases hres : r.result with _ | p
      · have hval : check_response r = .ok (err_lines c "Unknown error", false) := by
          simp [check_response, hs, hc, hmsg, hres]
        rw [hval] at hok
        simp only [Except.ok.injEq, Prod.mk.injEq] at hok
        exact ⟨hok.2.symm, by rw [← hok.1]; simp [err_lines]⟩
      · rcases hpm : p.msg with _ | m
        · have hval : check_response r = .error (.keyError "msg") := by
            simp [check_response, hs, hc, hmsg, hres, hpm]
          rw [hval] at hok
          exact absurd hok (by simp)
        · have hval : check_response r = .ok (err_lines c m, false) := by
            simp [check_response, hs, hc, hmsg, hres, hpm]
          rw [hval] at hok
          simp only [Except.ok.injEq, Prod.mk.injEq] at hok
          exact ⟨hok.2.symm, by rw [← hok.1]; simp [err_lines]⟩
    · have hval : check_response r = .ok (err_lines c m, false) := by
        simp [check_response, hs, hc, hmsg]
      rw [hval] at hok
      simp only [Except.ok.injEq, Prod.mk.injEq] at hok
      exact ⟨hok.2.symm, by rw [← hok.1]; simp [err_lines]⟩

/-- C2 witness: the amended theorem applied to the concrete error response
with code `"999"` (absent from the table) and no message in either
location: the message `"Unknown error"` is synthesized and the unknown
code is reported as-is. -/
theorem check_response_error_cases_witness :
    check_response { status := "error", code := some "999", msg := none, result := none }
      = .ok (err_lines "999" "Unknown error", false) :=
  ((check_response_error_cases
      { status := "error", code := some "999", msg := none, result := none }
      "999" rfl rfl).2.2.1) rfl rfl

/-- C7 counterexample: the coercion wraps `None` into the one-element list
`[None]`; it does not map null input to the empty sequence. -/
theorem normalize_collection_null_not_empty :
    normalize_collection (PyVal.null : PyVal Unit) = [PyVal.null]
    ∧ normalize_collection (PyVal.null : PyVal Unit) ≠ [] :=
  ⟨rfl, by simp [normalize_collection]⟩

/-- C7 amended: the Collection Normalizer is idempotent and returns an
already-normalized sequence unchanged (preserving order), wraps a single
bare object into a one-element sequence, and likewise wraps null into the
one-element sequence `[null]` — not the empty sequence. -/
theorem normalize_collection_rules :
    ∀ (α : Type) (l : List (PyVal α)) (a : α) (v : PyVal α),
      normalize_collection (PyVal.pylist l) = l
      ∧ normalize_collection (PyVal.obj a) = [PyVal.obj a]
      ∧ normalize_collection (PyVal.null : PyVal α) = [PyVal.null]
      ∧ normalize_collection (PyVal.pylist (normalize_collection v)) = normalize_collection v :=
  fun _ _ _ _ => ⟨rfl, rfl, rfl, rfl⟩

theorem append_sub_map_core {δ : Type} (s : LogIface) (es : List (RawEntry δ)) :
    (append_sub s es).map entry_core = es.map entry_core := by
  induction es with
  | nil => rfl
  | cons e rest ih =>
    by_cases hc : e.phy.name = parent_name s.name
    · simp [append_sub, hc, entry_core]
    · simp [append_sub, hc, entry_core]
      exact ih

theorem sub_interfaces_map_core {δ : Type} (logs : List LogIface) (es : List (RawEntry δ)) :
    (sub_interfaces es logs).map entry_core = es.map entry_core := by
  induction logs generalizing es with
  | nil => rfl
  | cons l ls ih =>
    have hstep : sub_interfaces es (l :: ls)
        = sub_interfaces (if '.' ∈ l.name.toList then append_sub l es else es) ls := rfl
    rw [hstep]
    by_cases hdot : '.' ∈ l.name.toList
    · rw [if_pos hdot, ih, append_sub_map_core]
    · rw [if_neg hdot, ih]

theorem append_sub_map_phy_name {δ : Type} (s : LogIface) (es : List (RawEntry δ)) :
    (append_sub s es).map (fun e => e.phy.name) = es.map (fun e => e.phy.name) := by
  have h := congrArg (List.map (fun t : PhyIface × Option LogIface × δ × String => t.1.name))
    (append_sub_map_core s es)
  simpa [List.map_map, Function.comp, entry_core] using h

theorem append_sub_any_name {δ : Type} (s : LogIface) (es : List (RawEntry δ)) (x : String) :
    (append_sub s es).any (fun e => e.phy.name == x) = es.any (fun e => e.phy.name == x) := by
  have h1 : ∀ (l : List (RawEntry δ)),
      l.any (fun e => e.phy.name == x) = (l.map (fun e => e.phy.name)).any (fun n => n == x) := by
    intro l
    induction l with
    | nil => rfl
    | cons e rest ih => simp [List.any_cons, ih]
  rw [h1, h1, append_sub_map_phy_name]

theorem entry_core_phy {δ : Type} {e1 e2 : RawEntry δ} (h : entry_core e1 = entry_core e2) :
    e1.phy = e2.phy := congrArg Prod.fst h

theorem entry_core_log {δ : Type} {e1 e2 : RawEntry δ} (h : entry_core e1 = entry_core e2) :
    e1.log = e2.log := congrArg (fun t => t.2.1) h

theorem entry_core_detail {δ : Type} {e1 e2 : RawEntry δ} (h : entry_core e1 = entry_core e2) :
    e1.detail = e2.detail := congrArg (fun t => t.2.2.1) h

theorem entry_core_descr {δ : Type} {e1 e2 : RawEntry δ} (h : entry_core e1 = entry_core e2) :
    e1.description = e2.description := congrArg (fun t => t.2.2.2) h

theorem append_sub_mem {δ : Type} (s : LogIface) (es : List (RawEntry δ)) :
    ∀ e1 ∈ append_sub s es, ∃ e ∈ es, entry_core e1 = entry_core e ∧
      (e1.sub = e.sub ∨ (e1.sub = e.sub ++ [s] ∧ e.phy.name = parent_name s.name)) := by
  induction es with
  | nil => intro e1 h1; simp [append_sub] at h1
  | cons e rest ih =>
    intro e1 h1
    by_cases hc : e.phy.name = parent_name s.name
    · rw [append_sub, if_pos hc] at h1
      rcases List.mem_cons.mp h1 with h2 | h2
      · subst h2
        exact ⟨e, List.mem_cons_self e rest, rfl, Or.inr ⟨rfl, hc⟩⟩
      · exact ⟨e1, List.mem_cons_of_mem e h2, rfl, Or.inl rfl⟩
    · rw [append_sub, if_neg hc] at h1
      rcases List.mem_cons.mp h1 with h2 | h2
      · subst h2
        exact ⟨e1, List.mem_cons_self e1 rest, rfl, Or.inl rfl⟩
      · rcases ih e1 h2 with ⟨e0, he0, hcore, hsub⟩
        exact ⟨e0, List.mem_cons_of_mem e he0, hcore, hsub⟩

theorem sub_interfaces_mem {δ : Type} (logs : List LogIface) (es : List (RawEntry δ)) :
    ∀ e1 ∈ sub_interfaces es logs, ∃ e ∈ es, entry_core e1 = entry_core e ∧
      ∀ x ∈ e1.sub,
        x ∈ e.sub ∨ (x ∈ logs ∧ '.' ∈ x.name.toList ∧ e.phy.name = parent_name x.name) := by
  induction logs generalizing es with
  | nil =>
    intro e1 h1
    exact ⟨e1, h1, rfl, fun x hx => Or.inl hx⟩
  | cons l ls ih =>
    intro e1 h1
    have hstep : sub_interfaces es (l :: ls)
        = sub_interfaces (if '.' ∈ l.name.toList then append_sub l es else es) ls := rfl
    rw [hstep] at h1
    by_cases hdot : '.' ∈ l.name.toList
    · rw [if_pos hdot] at h1
      rcases ih (append_sub l es) e1 h1 with ⟨em, hem, hcore1, hsub1⟩
      rcases append_sub_mem l es em hem with ⟨e, he, hcore2, hsub2⟩
      refine ⟨e, he, hcore1.trans hcore2, ?_⟩
      intro x hx
      rcases hsub1 x hx with hx1 | ⟨hxls, hxdot, hxpar⟩
      · rcases hsub2 with hs1 | ⟨hs2, hpar⟩
        · rw [hs1] at hx1
          exact Or.inl hx1
        · rw [hs2] at hx1
          rcases List.mem_append.mp hx1 with h3 | h3
          · exact Or.inl h3
          · have hxl : x = l := by simpa using h3
            subst hxl
            exact Or.inr ⟨List.mem_cons_self x ls, hdot, hpar⟩
      · refine Or.inr ⟨List.mem_cons_of_mem l hxls, hxdot, ?_⟩
        rw [← entry_core_phy hcore2]
        exact hxpar
    · rw [if_neg hdot] at h1
      rcases ih es e1 h1 with ⟨e, he, hcore, hsub⟩
      refine ⟨e, he, hcore, fun x hx => ?_⟩
      rcases hsub x hx with h3 | ⟨h4, h5, h6⟩
      · exact Or.inl h3
      · exact Or.inr ⟨List.mem_cons_of_mem l h4, h5, h6⟩

theorem append_sub_total_pos {δ : Type} (s : LogIface) (es : List (RawEntry δ))
    (h : es.any (fun e => e.phy.name == parent_name s.name) = true) :
    total_subs (append_sub s es) = total_subs es + 1 := by
  induction es with
  | nil => simp at h
  | cons e rest ih =>
    by_cases hc : e.phy.name = parent_name s.name
    · simp [append_sub, hc, total_subs]
      omega
    · have h2 : rest.any (fun e => e.phy.name == parent_name s.name) = true := by
        rcases List.any_eq_true.mp h with ⟨x, hx, hpx⟩
        rcases List.mem_cons.mp hx with h3 | h3
        · rw [h3] at hpx
          exact absurd (eq_of_beq hpx) hc
        · exact List.any_eq_true.mpr ⟨x, h3, hpx⟩
      simp [append_sub, hc, total_subs]
      have := ih h2
      simp [total_subs] at this
      omega

theorem append_sub_no_match {δ : Type} (s : LogIface) (es : List (RawEntry δ))
    (h : es.any (fun e => e.phy.name == parent_name s.name) = false) :
    append_sub s es = es := by
  induction es with
  | nil => rfl
  | cons e rest ih =>
    simp [List.any_cons] at h
    rw [append_sub, if_neg (by simpa using h.1)]
    rw [ih (by simpa using h.2)]

theorem sub_interfaces_total {δ : Type} (logs : List LogIface) (es : List (RawEntry δ)) :
    total_subs (sub_interfaces es logs)
      = total_subs es + logs.countP (fun lg =>
          decide ('.' ∈ lg.name.toList) && es.any (fun e => e.phy.name == parent_name lg.name)) := by
  induction logs generalizing es with
  | nil => simp [sub_interfaces]
  | cons l ls ih =>
    have hstep : sub_interfaces es (l :: ls)
        = sub_interfaces (if '.' ∈ l.name.toList then append_sub l es else es) ls := rfl
    rw [hstep, List.countP_cons]
    by_cases hdot : '.' ∈ l.name.toList
    · rw [if_pos hdot]
      by_cases hmatch : es.any (fun e => e.phy.name == parent_name l.name) = true
      · rw [ih, append_sub_total_pos l es hmatch]
        have hcong : ls.countP (fun lg => decide ('.' ∈ lg.name.toList) &&
              (append_sub l es).any (fun e => e.phy.name == parent_name lg.name))
            = ls.countP (fun lg => decide ('.' ∈ lg.name.toList) &&
              es.any (fun e => e.phy.name == parent_name lg.name)) := by
          apply List.countP_congr
          intro lg _
          rw [append_sub_any_name]
        rw [hcong]
        have hpl : (decide ('.' ∈ l.name.toList)
            && es.any (fun e => e.phy.name == parent_name l.name)) = true := by
          rw [hmatch, Bool.and_true]
          exact decide_eq_true hdot
        rw [hpl]
        simp
        omega
      · have hmatch2 : es.any (fun e => e.phy.name == parent_name l.name) = false := by
          simpa using hmatch
        rw [append_sub_no_match l es hmatch2, ih]
        have hpl : (decide ('.' ∈ l.name.toList)
            && es.any (fun e => e.phy.name == parent_name l.name)) = false := by
          rw [hmatch2, Bool.and_false]
        rw [hpl]
        simp
    · rw [if_neg hdot, ih]
      have hpl : (decide ('.' ∈ l.name.toList)
          && es.any (fun e => e.phy.name == parent_name l.name)) = false := by
        rw [decide_eq_false hdot, Bool.false_and]
      rw [hpl]
      simp

theorem takeWhile_dot_split (l : List Char) (h : '.' ∈ l) :
    l = l.takeWhile (fun c => c ≠ '.') ++ '.' :: (l.dropWhile (fun c => c ≠ '.')).tail := by
  induction l with
  | nil => cases h
  | cons a as ih =>
    by_cases ha : a = '.'
    · subst ha
      simp [List.takeWhile_cons, List.dropWhile_cons]
    · have h2 : '.' ∈ as := by
        rcases List.mem_cons.mp h with h3 | h3
        · exact absurd h3.symm ha
        · exact h3
      have hd : (decide (a ≠ '.')) = true := decide_eq_true ha
      simp only [List.takeWhile_cons, List.dropWhile_cons, hd, if_pos, List.cons_append]
      exact congrArg (a :: ·) (ih h2)

theorem parent_name_toList (n : String) :
    (parent_name n).toList = n.toList.takeWhile (fun c => c ≠ '.') := rfl

theorem raw_interfaces_mem {δ : Type} (phys : List PhyIface) (logs : List LogIface)
    (d : String → δ) (f : PhyIface → String) :
    ∀ e ∈ raw_interfaces phys logs d f, e.phy ∈ phys ∧ e.sub = [] := by
  intro e he
  rcases List.mem_map.mp he with ⟨p, hp, hmk⟩
  subst hmk
  exact ⟨hp, rfl⟩

theorem raw_interfaces_getq {δ : Type} (phys : List PhyIface) (logs : List LogIface)
    (d : String → δ) (f : PhyIface → String) (i : Nat) :
    (raw_interfaces phys logs d f)[i]? = (phys[i]?).map (fun iface =>
      { phy := iface, log := logs.find? (fun lg => lg.name == iface.name),
        detail := d iface.name, description := f iface, sub := [] }) := by
  simp [raw_interfaces, List.getElem?_map]

theorem sub_interfaces_core_getq {δ : Type} (phys : List PhyIface) (logs : List LogIface)
    (d : String → δ) (f : PhyIface → String) (i : Nat) :
    ((sub_interfaces (raw_interfaces phys logs d f) logs)[i]?).map entry_core
      = ((raw_interfaces phys logs d f)[i]?).map entry_core := by
  have h := sub_interfaces_map_core logs (raw_interfaces phys logs d f)
  calc ((sub_interfaces (raw_interfaces phys logs d f) logs)[i]?).map entry_core
      = ((sub_interfaces (raw_interfaces phys logs d f) logs).map entry_core)[i]? :=
        (List.getElem?_map _ _ _).symm
    _ = ((raw_interfaces phys logs d f).map entry_core)[i]? := by rw [h]
    _ = ((raw_interfaces phys logs d f)[i]?).map entry_core := List.getElem?_map _ _ _

theorem interfaces_length {δ : Type} (phys : List PhyIface) (logs : List LogIface)
    (d : String → δ) (f : PhyIface → String) (ds : List (String × String)) :
    (interfaces phys logs d f ds).length = phys.length := by
  have h1 := congrArg List.length (sub_interfaces_map_core logs (raw_interfaces phys logs d f))
  simp only [List.length_map] at h1
  simp only [interfaces, List.length_map]
  rw [h1]
  simp [raw_interfaces]

theorem interfaces_getq {δ : Type} (phys : List PhyIface) (logs : List LogIface)
    (d : String → δ) (f : PhyIface → String) (ds : List (String × String)) (i : Nat) :
    (interfaces phys logs d f ds)[i]?
      = ((sub_interfaces (raw_interfaces phys logs d f) logs)[i]?).map (mk_entry ds) := by
  simp [interfaces, List.getElem?_map]

/-- C5: a physical interface whose state is `down` reports speed as the
literal string `None` regardless of the raw speed value; any other state
reports the raw speed unchanged. Stated over the whole pipeline: the
output has one record per physical interface, in order, and the speed
rule holds position by position. -/
theorem interfaces_speed_rule {δ : Type} (phys : List PhyIface) (logs : List LogIface)
    (d : String → δ) (f : PhyIface → String) (ds : List (String × String)) :
    (interfaces phys logs d f ds).length = phys.length
    ∧ ∀ (i : Nat) (p : PhyIface) (e : IfaceEntry),
        phys[i]? = some p → (interfaces phys logs d f ds)[i]? = some e →
        e.name = p.name ∧ e.mac = p.mac
        ∧ e.speed = (if p.state = "down" then "None" else p.speed) := by
  refine ⟨interfaces_length phys logs d f ds, ?_⟩
  intro i p e hp he
  rw [interfaces_getq] at he
  rcases Option.map_eq_some'.mp he with ⟨e2, he2, hmk⟩
  have hq := sub_interfaces_core_getq phys logs d f i
  rw [he2, raw_interfaces_getq, hp] at hq
  simp only [Option.map_some'] at hq
  have hcore := Option.some.inj hq
  have hphy : e2.phy = p := by
    have h3 := entry_core_phy hcore
    simpa using h3
  subst hmk
  refine ⟨?_, ?_, ?_⟩
  · rw [show (mk_entry ds e2).name = e2.phy.name from rfl, hphy]
  · rw [show (mk_entry ds e2).mac = e2.phy.mac from rfl, hphy]
  · rw [show (mk_entry ds e2).speed
        = (if e2.phy.state = "down" then "None" else e2.phy.speed) from rfl, hphy]

/-- C5 witness: in the demonstration topology the interface `ethernet1/2`
is `down` with raw speed `10G`, and its output record reports speed
`None`. -/
theorem interfaces_speed_rule_witness :
    ({ name := "ethernet1/2", mac := "cc:dd", state := "down", speed := "10G" }
        : PhyIface).state = "down"
    ∧ entry2_demo.name = "ethernet1/2"
    ∧ entry2_demo.speed
        = (if ({ name := "ethernet1/2", mac := "cc:dd", state := "down", speed := "10G" }
            : PhyIface).state = "down" then "None"
           else "10G") := by
  have h := (interfaces_speed_rule (δ := Unit) phys_demo logs_demo (fun _ => ())
      (fun _ => "") descs_demo).2 1
    { name := "ethernet1/2", mac := "cc:dd", state := "down", speed := "10G" }
    entry2_demo (by decide) (by decide)
  exact ⟨rfl, h.1, h.2.2⟩

/-- C6: a parent whose matched logical entry reports ip `N/A` gets family
`Ethernet` and no address; any other ip gives family `inet` and that ip
as the address; a parent with no matched logical entry gets family
`None`; and the same `N/A` rule governs every subinterface record. -/
theorem interfaces_family_rule {δ : Type} (phys : List PhyIface) (logs : List LogIface)
    (d : String → δ) (f : PhyIface → String) (ds : List (String × String)) :
    ∀ (i : Nat) (p : PhyIface) (e : IfaceEntry),
      phys[i]? = some p → (interfaces phys logs d f ds)[i]? = some e →
      ((logs.find? (fun lg => lg.name == p.name) = none →
          e.family = "None" ∧ e.address = none)
       ∧ (∀ lg : LogIface, logs.find? (fun lg2 => lg2.name == p.name) = some lg →
            (lg.ip = "N/A" → e.family = "Ethernet" ∧ e.address = none)
            ∧ (lg.ip ≠ "N/A" → e.family = "inet" ∧ e.address = some lg.ip))
       ∧ (∀ s ∈ e.subinterfaces, ∃ lg ∈ logs, s.subinterface = lg.name
            ∧ ((lg.ip = "N/A" ∧ s.family = "Ethernet" ∧ s.address = none)
               ∨ (lg.ip ≠ "N/A" ∧ s.family = "inet" ∧ s.address = some lg.ip)))) := by
  intro i p e hp he
  rw [interfaces_getq] at he
  rcases Option.map_eq_some'.mp he with ⟨e2, he2, hmk⟩
  have hq := sub_interfaces_core_getq phys logs d f i
  rw [he2, raw_interfaces_getq, hp] at hq
  simp only [Option.map_some'] at hq
  have hcore := Option.some.inj hq
  have hlog : e2.log = logs.find? (fun lg => lg.name == p.name) := by
    have h3 := entry_core_log hcore
    simpa using h3
  subst hmk
  refine ⟨?_, ?_, ?_⟩
  · intro hnone
    constructor
    · show (mk_entry ds e2).family = "None"
      simp [mk_entry, hlog, hnone]
    · show (mk_entry ds e2).address = none
      simp [mk_entry, hlog, hnone]
  · intro lg hsome
    constructor
    · intro hip
      constructor
      · show (mk_entry ds e2).family = "Ethernet"
        simp [mk_entry, hlog, hsome, hip]
      · show (mk_entry ds e2).address = none
        simp [mk_entry, hlog, hsome, hip]
    · intro hip
      constructor
      · show (mk_entry ds e2).family = "inet"
        simp [mk_entry, hlog, hsome, hip]
      · show (mk_entry ds e2).address = some lg.ip
        simp [mk_entry, hlog, hsome, hip]
  · intro s hs
    have hs2 : s ∈ e2.sub.map (mk_sub_entry ds) := hs
    rcases List.mem_map.mp hs2 with ⟨x, hx, hmx⟩
    have hmem : e2 ∈ sub_interfaces (raw_interfaces phys logs d f) logs :=
      List.getElem?_mem he2
    rcases sub_interfaces_mem logs _ e2 hmem with ⟨e0, he0, hcore0, hsub0⟩
    have hraw := raw_interfaces_mem phys logs d f e0 he0
    rcases hsub0 x hx with hx0 | ⟨hxlogs, _, _⟩
    · rw [hraw.2] at hx0
      cases hx0
    · refine ⟨x, hxlogs, by rw [← hmx]; rfl, ?_⟩
      by_cases hip : x.ip = "N/A"
      · refine Or.inl ⟨hip, ?_, ?_⟩
        · rw [← hmx]
          simp [mk_sub_entry, hip]
        · rw [← hmx]
          simp [mk_sub_entry, hip]
      · refine Or.inr ⟨hip, ?_, ?_⟩
        · rw [← hmx]
          simp [mk_sub_entry, hip]
        · rw [← hmx]
          simp [mk_sub_entry, hip]

/-- C6 witness: in the demonstration topology the parent `ethernet1/1`
matches the logical entry with ip `10.0.0.1`, so its record has family
`inet` and that address. -/
theorem interfaces_family_rule_witness :
    entry1_demo.family = "inet" ∧ entry1_demo.address = some "10.0.0.1" :=
  ((interfaces_family_rule (δ := Unit) phys_demo logs_demo (fun _ => ())
      (fun _ => "") descs_demo 0
      { name := "ethernet1/1", mac := "aa:bb", state := "up", speed := "1G" }
      entry1_demo (by decide) (by decide)).2.1
    { name := "ethernet1/1", ip := "10.0.0.1" } (by decide)).2 (by decide)

theorem total_subs_raw {δ : Type} (phys : List PhyIface) (logs : List LogIface)
    (d : String → δ) (f : PhyIface → String) :
    total_subs (raw_interfaces phys logs d f) = 0 := by
  induction phys with
  | nil => rfl
  | cons p pr ih =>
    simp only [raw_interfaces, List.map_cons, total_subs, List.sum_cons] at ih ⊢
    simpa using ih

theorem raw_interfaces_any_name {δ : Type} (phys : List PhyIface) (logs : List LogIface)
    (d : String → δ) (f : PhyIface → String) (x : String) :
    (raw_interfaces phys logs d f).any (fun e => e.phy.name == x)
      = phys.any (fun p => p.name == x) := by
  induction phys with
  | nil => rfl
  | cons p pr ih =>
    simp only [raw_interfaces, List.map_cons, List.any_cons] at ih ⊢
    rw [ih]

/-- C4: in every produced topology, each subinterface record attached to a
parent has a name of the form `<parent-name>.<suffix>`; each logical
entry with a dotted name is attached at most once overall — the total
number of attached subinterface records equals the number of dotted
logical entries whose prefix matches some physical name — and a dotted
logical name whose prefix matches no physical interface name appears in
no parent's subinterface list. -/
theorem interfaces_subinterface_invariants {δ : Type} (phys : List PhyIface)
    (logs : List LogIface) (d : String → δ) (f : PhyIface → String)
    (ds : List (String × String)) :
    (∀ e ∈ interfaces phys logs d f ds, ∀ s ∈ e.subinterfaces,
        ∃ suffix : List Char, s.subinterface.toList = e.name.toList ++ '.' :: suffix)
    ∧ ((interfaces phys logs d f ds).map (fun e => e.subinterfaces.length)).sum
        = logs.countP (fun lg => decide ('.' ∈ lg.name.toList)
            && phys.any (fun p => p.name == parent_name lg.name))
    ∧ (∀ n : String, '.' ∈ n.toList → (∀ p ∈ phys, p.name ≠ parent_name n) →
        ∀ e ∈ interfaces phys logs d f ds, ∀ s ∈ e.subinterfaces,
          s.subinterface ≠ n) := by
  refine ⟨?_, ?_, ?_⟩
  · intro e he s hs
    have he1 : e ∈ (sub_interfaces (raw_interfaces phys logs d f) logs).map (mk_entry ds) := he
    rcases List.mem_map.mp he1 with ⟨e2, he2, hmk⟩
    subst hmk
    have hs2 : s ∈ e2.sub.map (mk_sub_entry ds) := hs
    rcases List.mem_map.mp hs2 with ⟨x, hx, hmx⟩
    rcases sub_interfaces_mem logs _ e2 he2 with ⟨e0, he0, hcore0, hsub0⟩
    have hraw := raw_interfaces_mem phys logs d f e0 he0
    rcases hsub0 x hx with hx0 | ⟨hxlogs, hxdot, hxpar⟩
    · rw [hraw.2] at hx0
      cases hx0
    · refine ⟨(x.name.toList.dropWhile (fun c => c ≠ '.')).tail, ?_⟩
      have hname : (mk_entry ds e2).name = e0.phy.name := by
        rw [show (mk_entry ds e2).name = e2.phy.name from rfl, entry_core_phy hcore0]
      rw [← hmx]
      show x.name.toList = (mk_entry ds e2).name.toList ++ '.' :: _
      rw [hname, hxpar, parent_name_toList]
      exact takeWhile_dot_split x.name.toList hxdot
  · have h1 : ((interfaces phys logs d f ds).map (fun e => e.subinterfaces.length)).sum
        = total_subs (sub_interfaces (raw_interfaces phys logs d f) logs) := by
      simp only [interfaces, List.map_map, total_subs]
      apply congrArg List.sum
      apply List.map_congr_left
      intro e2 _
      show (mk_entry ds e2).subinterfaces.length = e2.sub.length
      simp [mk_entry]
    rw [h1, sub_interfaces_total, total_subs_raw]
    have h2 : logs.countP (fun lg => decide ('.' ∈ lg.name.toList)
          && (raw_interfaces phys logs d f).any (fun e => e.phy.name == parent_name lg.name))
        = logs.countP (fun lg => decide ('.' ∈ lg.name.toList)
          && phys.any (fun p => p.name == parent_name lg.name)) :=
      List.countP_congr (fun lg _ => by rw [raw_interfaces_any_name])
    rw [h2]
    simp
  · intro n hdot hno e he s hs hcontra
    have he1 : e ∈ (sub_interfaces (raw_interfaces phys logs d f) logs).map (mk_entry ds) := he
    rcases List.mem_map.mp he1 with ⟨e2, he2, hmk⟩
    subst hmk
    have hs2 : s ∈ e2.sub.map (mk_sub_entry ds) := hs
    rcases List.mem_map.mp hs2 with ⟨x, hx, hmx⟩
    rcases sub_interfaces_mem logs _ e2 he2 with ⟨e0, he0, hcore0, hsub0⟩
    have hraw := raw_interfaces_mem phys logs d f e0 he0
    rcases hsub0 x hx with hx0 | ⟨hxlogs, hxdot, hxpar⟩
    · rw [hraw.2] at hx0
      cases hx0
    · have hxn : x.name = n := by
        rw [← hmx] at hcontra
        exact hcontra
      exact hno e0.phy hraw.1 (by rw [hxpar, hxn])

/-- C4 witness: in the demonstration topology the dotted logical name
`foo.1` has no matching physical prefix (`foo` names no physical
interface), and the one subinterface record that does appear is not it. -/
theorem interfaces_subinterface_invariants_witness :
    ({ subinterface := "ethernet1/1.10", family := "Ethernet", address := none,
       description := some "uplink" } : SubEntry).subinterface ≠ "foo.1" :=
  (interfaces_subinterface_invariants (δ := Unit) phys_demo logs_demo (fun _ => ())
      (fun _ => "") descs_demo).2.2 "foo.1" (by decide) (by decide)
    entry1_demo (by decide)
    { subinterface := "ethernet1/1.10", family := "Ethernet", address := none,
      description := some "uplink" } (by decide)

theorem mk_entry_with_unit {δ : Type} (ds : List (String × String)) (e : RawEntry δ) :
    mk_entry ds (with_unit_detail e) = mk_entry ds e := rfl

theorem append_sub_with_unit {δ : Type} (s : LogIface) (es : List (RawEntry δ)) :
    append_sub s (es.map with_unit_detail) = (append_sub s es).map with_unit_detail := by
  induction es with
  | nil => rfl
  | cons e rest ih =>
    by_cases hc : e.phy.name = parent_name s.name
    · simp [append_sub, with_unit_detail, List.map_cons, hc]
    · simp [append_sub, with_unit_detail, List.map_cons, hc]
      simpa [with_unit_detail] using ih

theorem sub_interfaces_with_unit {δ : Type} (logs : List LogIface)
    (es : List (RawEntry δ)) :
    sub_interfaces (es.map with_unit_detail) logs
      = (sub_interfaces es logs).map with_unit_detail := by
  induction logs generalizing es with
  | nil => rfl
  | cons l ls ih =>
    have hstep1 : sub_interfaces (es.map with_unit_detail) (l :: ls)
        = sub_interfaces (if '.' ∈ l.name.toList
            then append_sub l (es.map with_unit_detail)
            else es.map with_unit_detail) ls := rfl
    have hstep2 : sub_interfaces es (l :: ls)
        = sub_interfaces (if '.' ∈ l.name.toList then append_sub l es else es) ls := rfl
    rw [hstep1, hstep2]
    by_cases hdot : '.' ∈ l.name.toList
    · rw [if_pos hdot, if_pos hdot, append_sub_with_unit, ih]
    · rw [if_neg hdot, if_neg hdot, ih]

theorem raw_with_unit {δ : Type} (phys : List PhyIface) (logs : List LogIface)
    (d : String → δ) (f : PhyIface → String) :
    raw_interfaces phys logs (fun _ => ()) f
      = (raw_interfaces phys logs d f).map with_unit_detail := by
  simp only [raw_interfaces, List.map_map]
  apply List.map_congr_left
  intro p _
  rfl

/-- C10: every record of the output topology carries the constant counters
block with `bps_in`, `bps_out`, `pps_in`, `pps_out` all equal to the
empty string; the whole output is independent of the per-interface detail
fetch; and the detail fetch result is nevertheless stored in the raw
record for each physical interface. -/
theorem interfaces_counters_rule {δ : Type} (phys : List PhyIface) (logs : List LogIface)
    (d : String → δ) (f : PhyIface → String) (ds : List (String × String)) :
    (∀ e ∈ interfaces phys logs d f ds,
        e.counters = { bps_in := "", bps_out := "", pps_in := "", pps_out := "" })
    ∧ interfaces phys logs d f ds = interfaces phys logs (fun _ => ()) f ds
    ∧ (∀ (i : Nat) (p : PhyIface) (en : RawEntry δ), phys[i]? = some p →
        (raw_interfaces phys logs d f)[i]? = some en → en.detail = d p.name) := by
  refine ⟨?_, ?_, ?_⟩
  · intro e he
    have he1 : e ∈ (sub_interfaces (raw_interfaces phys logs d f) logs).map (mk_entry ds) := he
    rcases List.mem_map.mp he1 with ⟨e2, _, hmk⟩
    subst hmk
    rfl
  · have h : interfaces phys logs (fun _ => ()) f ds = interfaces phys logs d f ds := by
      show (sub_interfaces (raw_interfaces phys logs (fun _ => ()) f) logs).map (mk_entry ds)
        = (sub_interfaces (raw_interfaces phys logs d f) logs).map (mk_entry ds)
      rw [raw_with_unit phys logs d f, sub_interfaces_with_unit, List.map_map]
      apply List.map_congr_left
      intro e2 _
      rfl
    exact h.symm
  · intro i p en hp hen
    rw [raw_interfaces_getq, hp] at hen
    simp only [Option.map_some'] at hen
    rw [← Option.some.inj hen]

/-- C10 witness: the second record of the demonstration topology carries
the constant empty-string counters block. -/
theorem interfaces_counters_rule_witness :
    entry2_demo.counters = { bps_in := "", bps_out := "", pps_in := "", pps_out := "" } :=
  (interfaces_counters_rule (δ := Unit) phys_demo logs_demo (fun _ => ())
      (fun _ => "") descs_demo).1 entry2_demo (by decide)
